import Mathlib

/-!
Shallow embedding of the history-tracking core of the `math_assist` repository
(`src/math_assist/_history.py`, `_expression.py`, `_equation.py`).

Symbolic values of the external algebra engine (sympy) are modelled as an
opaque syntax tree `SymExpr`; the engine's operators are tree constructors and
its fallible calls are abstracted as functions returning `Except PyError _`.
Python object mutation is modelled by explicit state passing; exceptions by
`Except`; the identity of output sinks by natural numbers; and the observable
actions (a step landing in a history's log, a step being written to a sink)
by an explicit `Event` trace.
-/

/-- Opaque model of a sympy symbolic value.  `eqS` models a `sympy.Eq` node
(the repository stores `Eq(left, right)` objects as combined-history states and
as history arguments); `wrap` models the `sympy.Expr(item)` fallback branch of
`as_expr`. -/
inductive SymExpr : Type
  | intC : Int → SymExpr
  | symC : String → SymExpr
  | addE : SymExpr → SymExpr → SymExpr
  | subE : SymExpr → SymExpr → SymExpr
  | mulE : SymExpr → SymExpr → SymExpr
  | divE : SymExpr → SymExpr → SymExpr
  | powE : SymExpr → SymExpr → SymExpr
  | eqS : SymExpr → SymExpr → SymExpr
  | wrap : SymExpr → SymExpr
  deriving DecidableEq, Repr

/-- Python exception kinds raised by the code under verification. -/
inductive PyError : Type
  | typeError
  | valueError
  | indexError
  | engineError
  deriving DecidableEq, Repr

/-- `WorkStep` (dataclass in `_history.py`): one recorded transformation.
`before`/`after` hold `Any` in Python and may be `None`, hence `Option`. -/
structure WorkStep : Type where
  index : Nat
  description : String
  args : List SymExpr
  before : Option SymExpr
  after : Option SymExpr
  suffix : Option String
  children : Option (List WorkStep)
  deriving Repr

/-- The active combined-step grouping context (`ParentStepContext`). -/
structure CombCtx : Type where
  tag : String
  subSteps : List WorkStep
  deriving Repr

/-- Which history a step landed in (used to tag trace events). -/
inductive HistId : Type
  | combined
  | leftH
  | rightH
  | solo
  deriving DecidableEq, Repr

/-- Observable actions: a step appended to a history's log, or a step written
to an attached output sink (`_write_step`). -/
inductive Event : Type
  | placed : HistId → WorkStep → Event
  | emitted : Nat → WorkStep → Event
  deriving Repr

/-- The index of a `placed` event, if any. -/
def Event.placedIndex : Event → Option Nat
  | .placed _ s => some s.index
  | .emitted _ _ => none

/-- Whether the event is a notification of sink `o`. -/
def Event.isEmitTo (o : Nat) : Event → Bool
  | .emitted o2 _ => o2 = o
  | .placed _ _ => false

/-- The flattened sequence of step indices in the order steps were produced
and propagated into history logs. -/
def placedIndices (evs : List Event) : List Nat :=
  evs.filterMap Event.placedIndex

/-- Mutable fields of a `WorkingHistory` object, minus the shared index source
(threaded explicitly, since an Equation shares one `IndexSource` by reference
across its three histories) and minus the parent link (made explicit at each
call site, since parent propagation mutates a *different* object). -/
structure HistState : Type where
  lastState : Option SymExpr
  currentState : Option SymExpr
  steps : List WorkStep
  outputs : List Nat
  context : Option CombCtx
  deriving Repr

/-- A freshly constructed `WorkingHistory()` with no initial state. -/
def emptyHist : HistState :=
  { lastState := none, currentState := none, steps := [], outputs := [], context := none }

namespace HistState

/-- `WorkingHistory.update`: shift `current_state` into `last_state`. -/
def update (h : HistState) (newState : Option SymExpr) : HistState :=
  { h with lastState := h.currentState, currentState := newState }

/-- `WorkingHistory._append_step` for a history with no parent: append to the
own log, then notify each attached sink in order. -/
def append_step (h : HistState) (me : HistId) (s : WorkStep) : HistState × List Event :=
  ({ h with steps := h.steps ++ [s] },
    Event.placed me s :: h.outputs.map (fun o => Event.emitted o s))

/-- `WorkingHistory.append` for a history with no parent.  `ix` is the current
value of the shared `IndexSource`; the new value is returned. -/
def append (h : HistState) (me : HistId) (ix : Nat) (description : String)
    (args : List SymExpr) (newState : SymExpr) : HistState × Nat × List Event :=
  let h := h.update (some newState)
  let step : WorkStep :=
    { index := ix, description := description, args := args,
      before := h.lastState, after := h.currentState, suffix := none, children := none }
  let (h, evs) := h.append_step me step
  (h, ix + 1, evs)

/-- `WorkingHistory.combined_step(tag)`: install a fresh grouping context
(replacing any active one) and return it. -/
def combined_step (h : HistState) (tag : String) : HistState :=
  { h with context := some { tag := tag, subSteps := [] } }

/-- `WorkingHistory.end_combined_step` for a history with no parent.  With no
active context this is a no-op.  With an active context the code reads
`sub_steps[0]` and `sub_steps[-1]`; on an empty buffer Python raises
`IndexError` before anything is appended. -/
def end_combined_step (h : HistState) (me : HistId) (ix : Nat) :
    Except PyError (HistState × Nat × List Event) :=
  match h.context with
  | none => .ok (h, ix, [])
  | some ctx =>
    match ctx.subSteps with
    | [] => .error .indexError
    | first :: rest =>
      let last := rest.getLastD first
      let step : WorkStep :=
        { index := ix, description := first.description, args := first.args,
          before := first.before, after := last.after,
          suffix := some ctx.tag, children := some (first :: rest) }
      let (h, evs) := h.append_step me step
      .ok ({ h with context := none }, ix + 1, evs)

/-- `WorkingHistory._append_by_child` for a parent history that itself has no
parent (the combined history of an Equation): recompute the combined state,
re-snapshot the propagated copy, and either buffer it into the active grouping
context or append it directly. -/
def append_by_child (h : HistState) (me : HistId) (s : WorkStep) (tag : String)
    (combinedState : SymExpr) : HistState × List Event :=
  let h := h.update (some combinedState)
  let s' := { s with suffix := some (" on " ++ tag),
                     before := h.lastState, after := h.currentState }
  match h.context with
  | some ctx =>
    ({ h with context := some { ctx with subSteps := ctx.subSteps ++ [s'] } }, [])
  | none => h.append_step me s'

/-- `WorkingHistory.attach_output`: append the sink only if not yet present. -/
def attach_output (h : HistState) (o : Nat) : HistState :=
  if o ∈ h.outputs then h else { h with outputs := h.outputs ++ [o] }

/-- `WorkingHistory.detach_output`: remove the first occurrence if present. -/
def detach_output (h : HistState) (o : Nat) : HistState :=
  if o ∈ h.outputs then { h with outputs := h.outputs.erase o } else h

/-- `WorkingHistory.detach_all_outputs`. -/
def detach_all_outputs (h : HistState) : HistState :=
  { h with outputs := [] }

end HistState

/-! ### Expression (`_expression.py`), standalone (its history has no parent) -/

/-- Mutable fields of a standalone `Expression`: the symbolic value, its own
`WorkingHistory` (constructed with `current_state = expr`), the history's own
`IndexSource` counter, and the `_substitutions` record. -/
structure ExprState : Type where
  expr : SymExpr
  ix : Nat
  hist : HistState
  substitutions : List (SymExpr × SymExpr)
  deriving Repr

/-- `Expression(expr)` with no history supplied: a fresh parentless
`WorkingHistory(current_state=expr)`. -/
def mkExpression (e : SymExpr) : ExprState :=
  { expr := e, ix := 0,
    hist := { emptyHist with currentState := some e },
    substitutions := [] }

namespace Expression

/-- `Expression.apply(sympy_func, *args, description=...)`: the engine call
`sympy_func(self._expr, *args, **kwargs)` is abstracted as `f` (its extra
arguments are part of the closure; `args` is kept separately because it is
what the history records).  The value is reassigned and the step appended only
after the engine call returns; a raised engine error propagates with the
state untouched. -/
def apply (s : ExprState) (fname : String) (f : SymExpr → Except PyError SymExpr)
    (args : List SymExpr) (description : Option String) :
    ExprState × Except PyError (List Event) :=
  let d := description.getD ("Apply \x27" ++ fname ++ "\x27")
  match f s.expr with
  | .error err => (s, .error err)
  | .ok v =>
    let (h, ix, evs) := s.hist.append .solo s.ix d args v
    ({ s with expr := v, hist := h, ix := ix }, .ok evs)

/-- `Expression.add` (the `as_expr` conversion of the operand is the identity
at this value level; sympy's `+` is the `addE` constructor). -/
def addOp (s : ExprState) (other : SymExpr) (description : String) :
    ExprState × List Event :=
  let v := SymExpr.addE s.expr other
  let (h, ix, evs) := s.hist.append .solo s.ix description [other] v
  ({ s with expr := v, hist := h, ix := ix }, evs)

/-- `Expression.subtract`. -/
def subtractOp (s : ExprState) (other : SymExpr) (description : String) :
    ExprState × List Event :=
  let v := SymExpr.subE s.expr other
  let (h, ix, evs) := s.hist.append .solo s.ix description [other] v
  ({ s with expr := v, hist := h, ix := ix }, evs)

/-- `Expression._substitute` with the engine call `self._expr.subs(a, b)`
abstracted as `subsF` (the engine is an external collaborator): reassign the
value, append one step whose argument list is `[Eq(a, b)]` unless
`ignore_args`, and record the substitution pair. -/
def substitute_with (s : ExprState)
    (subsF : SymExpr → SymExpr → SymExpr → Except PyError SymExpr)
    (original replacement : SymExpr) (description : String) (ignoreArgs : Bool) :
    ExprState × Except PyError (List Event) :=
  match subsF s.expr original replacement with
  | .error err => (s, .error err)
  | .ok v =>
    let (h, ix, evs) := s.hist.append .solo s.ix description
      (if ignoreArgs then [] else [SymExpr.eqS original replacement]) v
    ({ s with expr := v, hist := h, ix := ix,
              substitutions := s.substitutions ++ [(original, replacement)] },
      .ok evs)

end Expression

/-- Structural model of the engine's bound substitution `e.subs(a, b)`:
replace every occurrence of the subtree `a` by `b`. -/
def SymExpr.subs : SymExpr → SymExpr → SymExpr → SymExpr
  | e, a, b =>
    if e = a then b else
    match e with
    | .intC n => .intC n
    | .symC s => .symC s
    | .addE x y => .addE (x.subs a b) (y.subs a b)
    | .subE x y => .subE (x.subs a b) (y.subs a b)
    | .mulE x y => .mulE (x.subs a b) (y.subs a b)
    | .divE x y => .divE (x.subs a b) (y.subs a b)
    | .powE x y => .powE (x.subs a b) (y.subs a b)
    | .eqS x y => .eqS (x.subs a b) (y.subs a b)
    | .wrap x => .wrap (x.subs a b)

namespace Expression

/-- `Expression._substitute` with the concrete (structural) substitution
engine; this branch of the engine never raises. -/
def substitute1 (s : ExprState) (original replacement : SymExpr)
    (description : String) (ignoreArgs : Bool) :
    ExprState × Except PyError (List Event) :=
  substitute_with s (fun e a b => .ok (e.subs a b)) original replacement description ignoreArgs

end Expression

/-- One positional argument of `Expression.substitute`: a plain value, a
`sympy.Eq` object, or an `Equation` object (of which only the left/right
values matter, extracted through `as_expr` on its `Expression` accessors). -/
inductive SubArg : Type
  | exprA : SymExpr → SubArg
  | eqn : SymExpr → SymExpr → SubArg
  | equationObj : SymExpr → SymExpr → SubArg
  deriving DecidableEq, Repr

/-- `as_expr` applied to a positional argument of the two-argument form of
`substitute`.  On a non-`Expr` object (`sympy.Eq`, `Equation`) Python's
`as_expr` falls through to the `sympy.Expr(item)` constructor, modelled by
`wrap`. -/
def SubArg.as_expr_arg : SubArg → SymExpr
  | .exprA e => e
  | .eqn l r => .wrap (.eqS l r)
  | .equationObj l r => .wrap (.eqS l r)

namespace Expression

/-- `Expression.substitute(*args, description=..., ignore_args=...)`:
dispatch on the number and shape of the positional arguments, raising
`ValueError` for zero arguments, for a single non-equation argument, and for
more than two arguments. -/
def substitute (s : ExprState) (args : List SubArg) (description : String)
    (ignoreArgs : Bool) : ExprState × Except PyError (List Event) :=
  match args with
  | [a] =>
    match a with
    | .eqn l r => substitute1 s l r description ignoreArgs
    | .equationObj l r => substitute1 s l r description ignoreArgs
    | .exprA _ => (s, .error .valueError)
  | [a, b] => substitute1 s a.as_expr_arg b.as_expr_arg description ignoreArgs
  | _ => (s, .error .valueError)

end Expression

/-! ### Equation (`_equation.py`) -/

/-- One side of an equation. -/
inductive Side : Type
  | leftS
  | rightS
  deriving DecidableEq, Repr

/-- The parent tag a side history is constructed with
(`as_parent("left side")` / `as_parent("right side")`). -/
def Side.tag : Side → String
  | .leftS => "left side"
  | .rightS => "right side"

/-- The trace identifier of a side history. -/
def Side.histId : Side → HistId
  | .leftS => .leftH
  | .rightS => .rightH

/-- The state of an `Equation`: the shared `IndexSource` counter, the combined
history, the two side histories (each parented to the combined history with
its side tag), and the two `Expression` values. -/
structure EqState : Type where
  counter : Nat
  combined : HistState
  leftHist : HistState
  rightHist : HistState
  leftExpr : SymExpr
  rightExpr : SymExpr
  deriving Repr

namespace EqState

/-- `Equation.as_sympy()`: `sympy.Eq(left.expr, right.expr)` over the current
values. -/
def as_sympy (e : EqState) : SymExpr :=
  .eqS e.leftExpr e.rightExpr

/-- The history of the given side. -/
def sideHist (e : EqState) : Side → HistState
  | .leftS => e.leftHist
  | .rightS => e.rightHist

/-- Replace the history of the given side. -/
def setSideHist (e : EqState) : Side → HistState → EqState
  | .leftS, h => { e with leftHist := h }
  | .rightS, h => { e with rightHist := h }

/-- The expression value of the given side. -/
def sideExpr (e : EqState) : Side → SymExpr
  | .leftS => e.leftExpr
  | .rightS => e.rightExpr

/-- Replace the expression value of the given side. -/
def setSideExpr (e : EqState) : Side → SymExpr → EqState
  | .leftS, v => { e with leftExpr := v }
  | .rightS, v => { e with rightExpr := v }

end EqState

/-- `Equation.__init__(left, right)` for expression-valued inputs: a fresh
shared `IndexSource`, a combined history whose `get_combined_state` is
`as_sympy`, two child histories parented to it (constructed with no
`current_state` of their own), a missing right side defaulting to `0`, and a
final `update(as_sympy())` on the combined history (shifting its `None`
initial `current_state` into `last_state`). -/
def mkEquation (left : SymExpr) (right : Option SymExpr) : EqState :=
  let l := left
  let r := right.getD (.intC 0)
  { counter := 0
    combined := (emptyHist.update (some (.eqS l r)))
    leftHist := emptyHist
    rightHist := emptyHist
    leftExpr := l
    rightExpr := r }

namespace EqState

/-- `WorkingHistory.append` called on a side history of an Equation, whose
parent is the combined history: the child updates its own state, takes an
index from the shared source, appends the step to its own log, propagates it
to the combined history via `_append_by_child` (which recomputes the combined
state from `as_sympy`), and finally notifies its own sinks. -/
def sideHistAppend (e : EqState) (side : Side) (description : String)
    (args : List SymExpr) (newState : SymExpr) : EqState × List Event :=
  let ch := (e.sideHist side).update (some newState)
  let ix := e.counter
  let step : WorkStep :=
    { index := ix, description := description, args := args,
      before := ch.lastState, after := ch.currentState, suffix := none, children := none }
  let ch := { ch with steps := ch.steps ++ [step] }
  let e := { e.setSideHist side ch with counter := ix + 1 }
  let (comb, evParent) := e.combined.append_by_child .combined step side.tag e.as_sympy
  let e := { e with combined := comb }
  let evSelf := ch.outputs.map (fun o => Event.emitted o step)
  (e, Event.placed side.histId step :: (evParent ++ evSelf))

/-- An `Expression` mutator invoked through a side of an Equation
(`eq.left.<op>` / `eq.right.<op>`): the side's value is reassigned, then its
history append runs. -/
def sideMutate (e : EqState) (side : Side) (description : String)
    (args : List SymExpr) (newExpr : SymExpr) : EqState × List Event :=
  let e := e.setSideExpr side newExpr
  e.sideHistAppend side description args newExpr

/-- `eq.left.add(other)` / `eq.right.add(other)`. -/
def sideAdd (e : EqState) (side : Side) (other : SymExpr) : EqState × List Event :=
  e.sideMutate side "Add" [other] (.addE (e.sideExpr side) other)

/-- `eq.left.subtract(other)` / `eq.right.subtract(other)`. -/
def sideSubtract (e : EqState) (side : Side) (other : SymExpr) : EqState × List Event :=
  e.sideMutate side "Subtract" [other] (.subE (e.sideExpr side) other)

/-- `eq.left.multiply_by(other)` / `eq.right.multiply_by(other)`. -/
def sideMultiplyBy (e : EqState) (side : Side) (other : SymExpr) : EqState × List Event :=
  e.sideMutate side "Multiply by" [other] (.mulE (e.sideExpr side) other)

end EqState

/-- The Python call `self._history.combined_step(tag, description=description,
args=args)` made by `Equation._combined_step_context` (`_equation.py` line 75):
`WorkingHistory.combined_step` accepts only `tag`, so the interpreter raises
`TypeError` for the unexpected keyword arguments before the method body runs.
The call never returns, hence the `Empty` success type. -/
def HistState.combined_step_kwcall (h : HistState) (tag : String)
    (description : Option String) (args : Option (List SymExpr)) :
    Except PyError Empty :=
  .error .typeError

namespace EqState

/-- `Equation._combined_step_context(description, tag, args)`: substitute the
default tag, then make the failing keyword-argument call into `combined_step`. -/
def combined_step_context (e : EqState) (description : Option String)
    (tag : Option String) (args : Option (List SymExpr)) : Except PyError Empty :=
  let t := tag.getD "on both sides"
  e.combined.combined_step_kwcall t description args

/-- `Equation.add(other)`: `with self._combined_step_context(): ...` — the
context-manager expression itself raises, so the with-block body (the two
side adds and the closing `end_combined_step`) is unreachable. -/
def eqAdd (e : EqState) (other : SymExpr) : Except PyError (EqState × List Event) :=
  (e.combined_step_context none none none).bind fun c => c.elim

/-- `Equation.swap_sides()`: `with self._combined_step_context("Swap left and
right sides", tag="", args=[]): ...` — the context-manager expression itself
raises, so the arithmetic-move body is unreachable. -/
def swap_sides (e : EqState) : Except PyError (EqState × List Event) :=
  (e.combined_step_context (some "Swap left and right sides") (some "") (some [])).bind
    fun c => c.elim

end EqState

/-- A side-wise operation on an Equation (issued through the `left`/`right`
accessors, the only mutating surface of an Equation that does not raise). -/
inductive SideOp : Type
  | addO : Side → SymExpr → SideOp
  | subtractO : Side → SymExpr → SideOp
  | multiplyByO : Side → SymExpr → SideOp

/-- Run one side-wise operation. -/
def SideOp.run (e : EqState) : SideOp → EqState × List Event
  | .addO s k => e.sideAdd s k
  | .subtractO s k => e.sideSubtract s k
  | .multiplyByO s k => e.sideMultiplyBy s k

/-- Run a sequence of side-wise operations, concatenating the event traces. -/
def EqState.runOps (e : EqState) : List SideOp → EqState × List Event
  | [] => (e, [])
  | op :: rest =>
    let (e1, ev1) := op.run e
    let (e2, ev2) := e1.runOps rest
    (e2, ev1 ++ ev2)

/-! ### Auxiliary definitions for the statements -/

/-- Integer-valued denotation of a symbolic value under an assignment of the
free symbols, used to state algebraic identities.  Division and power are
given the usual total conventions of `Int`; an `Eq` node denotes `1` when both
sides agree and `0` otherwise. -/
def SymExpr.evalI (env : String → Int) : SymExpr → Int
  | .intC n => n
  | .symC s => env s
  | .addE a b => a.evalI env + b.evalI env
  | .subE a b => a.evalI env - b.evalI env
  | .mulE a b => a.evalI env * b.evalI env
  | .divE a b => a.evalI env / b.evalI env
  | .powE a b => a.evalI env ^ (b.evalI env).toNat
  | .eqS a b => if a.evalI env = b.evalI env then 1 else 0
  | .wrap a => a.evalI env

/-- The values the unreachable body of `Equation.swap_sides` would assign to
the two sides (`_equation.py` lines 136-143): with original sides `L`, `R`,
the left side becomes `((L - L) - R) * (-1)` and the right side becomes
`((R - L) - R) * (-1)`. -/
def swapMovesValues (L R : SymExpr) : SymExpr × SymExpr :=
  (.mulE (.subE (.subE L L) R) (.intC (-1)),
   .mulE (.subE (.subE R L) R) (.intC (-1)))

/-- Every step of the list has a present `before` and a present `after`. -/
def allBeforeAfterSome (l : List WorkStep) : Bool :=
  l.all (fun s => s.before.isSome && s.after.isSome)

/-- The `before`/`after` pattern of a side history's log: the first recorded
step has `before = None` (the side history is constructed with no
`current_state`), every later step has a present `before`, and every step has
a present `after`. -/
def sideBeforePattern : List WorkStep → Bool
  | [] => true
  | s0 :: rest => s0.before.isNone && s0.after.isSome && allBeforeAfterSome rest

/-- Invariant of a side history of an Equation: its `current_state` is absent
exactly while its log is empty, and its log follows `sideBeforePattern`. -/
def SideInv (h : HistState) : Prop :=
  (h.currentState = none ↔ h.steps = []) ∧ sideBeforePattern h.steps = true

/-- Invariant of an Equation state under side-wise operations: the combined
history holds a present state and no grouping context, its log has present
`before`/`after` snapshots throughout, and both side histories satisfy
`SideInv`. -/
def EqInv (e : EqState) : Prop :=
  e.combined.currentState.isSome = true
  ∧ e.combined.context = none
  ∧ allBeforeAfterSome e.combined.steps = true
  ∧ SideInv e.leftHist ∧ SideInv e.rightHist

/-- A sample buffered sub-step (used to exhibit a non-empty grouping
context). -/
def sampleStep : WorkStep :=
  { index := 0, description := "Add", args := [.intC 1],
    before := some (.symC "x"), after := some (.addE (.symC "x") (.intC 1)),
    suffix := none, children := none }

/-- A history carrying an active grouping context with one buffered
sub-step. -/
def sampleBufferedHist : HistState :=
  { emptyHist with context := some { tag := "g", subSteps := [sampleStep] } }

/-! ### Helper lemmas -/

theorem placedIndices_nil : placedIndices [] = [] := rfl

theorem placedIndices_append (l1 l2 : List Event) :
    placedIndices (l1 ++ l2) = placedIndices l1 ++ placedIndices l2 :=
  List.filterMap_append l1 l2 Event.placedIndex

theorem placedIndices_emits (os : List Nat) (s : WorkStep) :
    placedIndices (os.map (fun o => Event.emitted o s)) = [] := by
  induction os with
  | nil => rfl
  | cons o rest ih => simp [placedIndices, Event.placedIndex, ih]

theorem countP_emits (os : List Nat) (s : WorkStep) (o : Nat) :
    (os.map (fun x => Event.emitted x s)).countP (Event.isEmitTo o) = os.count o := by
  induction os with
  | nil => rfl
  | cons x rest ih =>
    by_cases hx : x = o
    · simp [List.countP_cons, List.count_cons, Event.isEmitTo, ih, hx]
    · simp [List.countP_cons, List.count_cons, Event.isEmitTo, ih, hx, Ne.symm hx]

theorem allBeforeAfterSome_append (l1 l2 : List WorkStep) :
    allBeforeAfterSome (l1 ++ l2) = (allBeforeAfterSome l1 && allBeforeAfterSome l2) :=
  List.all_append

theorem sideBeforePattern_append (l : List WorkStep) (s : WorkStep)
    (hl : sideBeforePattern l = true) (hne : l ≠ [])
    (hs : s.before.isSome = true) (ha : s.after.isSome = true) :
    sideBeforePattern (l ++ [s]) = true := by
  cases l with
  | nil => exact absurd rfl hne
  | cons s0 rest =>
    simp only [sideBeforePattern, List.cons_append, allBeforeAfterSome,
      List.all_append, List.all_cons, List.all_nil, Bool.and_true,
      Bool.and_eq_true] at hl ⊢
    tauto

/-! ### C1 -/

/-- C1: refuted by the code as shipped — `Equation.add(k)` does not append a
combined Work Step; it raises `TypeError`, because
`Equation._combined_step_context` passes `description`/`args` keyword
arguments to `WorkingHistory.combined_step`, whose signature accepts only
`tag`.  Evaluating the embedded `Equation.add` on the concrete equation
`x = y` with `k = 1` yields the `TypeError`. -/
theorem equation_add_raises_typeerror :
    EqState.eqAdd (mkEquation (.symC "x") (some (.symC "y"))) (.intC 1)
      = .error .typeError := rfl

/-! ### C5 -/

/-- C5: refuted by the code as shipped — `Equation.swap_sides()` raises
`TypeError` before performing any arithmetic move, for the same reason as
`Equation.add` (the keyword-argument call into
`WorkingHistory.combined_step`).  Evaluating the embedded `swap_sides` on the
concrete equation `x = y` yields the `TypeError`. -/
theorem swap_sides_raises_typeerror :
    EqState.swap_sides (mkEquation (.symC "x") (some (.symC "y")))
      = .error .typeError := rfl

/-- The claim's algebraic content is the intent of the unreachable body: the
arithmetic-move sequence of `swap_sides` would leave the left side denoting
the original `R` and the right side denoting the original `L` under every
integer assignment of the symbols. -/
theorem swapMovesValues_algebra (L R : SymExpr) (env : String → Int) :
    (swapMovesValues L R).1.evalI env = R.evalI env
    ∧ (swapMovesValues L R).2.evalI env = L.evalI env := by
  constructor <;> simp [swapMovesValues, SymExpr.evalI]

/-! ### C3 -/

/-- C3 counterexample: ending an active combined-step context that holds zero
buffered sub-steps is not error-free — the code indexes `sub_steps[0]` of the
empty buffer, so the embedded `end_combined_step` evaluates to `IndexError`
on a concrete history whose active context has an empty buffer. -/
theorem end_combined_step_empty_raises :
    HistState.end_combined_step
      { emptyHist with context := some { tag := "on both sides", subSteps := [] } }
      .combined 0
      = .error .indexError := rfl

/-- C3 amended: if `end_combined_step` is called while the active
combined-step context holds zero buffered sub-steps, the call raises
`IndexError`; since the error occurs before any step is built or appended, no
aggregate step is produced, nothing reaches the log, the parent, or any sink,
but the call is not error-free (and the context is left in place). -/
theorem end_combined_step_empty_raises_general (h : HistState) (me : HistId)
    (ix : Nat) (ctx : CombCtx) (hc : h.context = some ctx)
    (hs : ctx.subSteps = []) :
    h.end_combined_step me ix = .error .indexError := by
  obtain ⟨tag, subs⟩ := ctx
  simp only [CombCtx.mk.injEq] at hs
  subst hs
  simp [HistState.end_combined_step, hc]

theorem end_combined_step_empty_raises_general_witness :
    ({ emptyHist with context := some { tag := "t", subSteps := [] } } : HistState).context
        = some { tag := "t", subSteps := [] }
    ∧ ({ tag := "t", subSteps := [] } : CombCtx).subSteps = []
    ∧ HistState.end_combined_step
        { emptyHist with context := some { tag := "t", subSteps := [] } } .solo 5
        = .error .indexError :=
  ⟨rfl, rfl,
    end_combined_step_empty_raises_general
      { emptyHist with context := some { tag := "t", subSteps := [] } }
      .solo 5 { tag := "t", subSteps := [] } rfl rfl⟩

/-! ### C10 -/

/-- C10: calling `combined_step(tag)` while a grouping context is already
active installs a fresh empty context and changes nothing else: the result
equals the history with its context replaced by `⟨tag, []⟩`, and coincides
with the result of calling `combined_step` on the same history with the old
context removed — so the previously buffered sub-steps are discarded without
being appended, propagated, or delivered to any sink (the call emits no
events and leaves log, outputs, and states untouched). -/
theorem combined_step_replaces_context (h : HistState) (c : CombCtx)
    (tag : String) (hc : h.context = some c) :
    h.combined_step tag = { h with context := some { tag := tag, subSteps := [] } }
    ∧ h.combined_step tag
        = HistState.combined_step { h with context := none } tag
    ∧ (h.combined_step tag).steps = h.steps
    ∧ (h.combined_step tag).outputs = h.outputs :=
  ⟨rfl, rfl, rfl, rfl⟩

theorem combined_step_replaces_context_witness :
    sampleBufferedHist.context = some { tag := "g", subSteps := [sampleStep] }
    ∧ (sampleBufferedHist.combined_step "h"
        = { sampleBufferedHist with context := some { tag := "h", subSteps := [] } }
      ∧ sampleBufferedHist.combined_step "h"
          = HistState.combined_step { sampleBufferedHist with context := none } "h"
      ∧ (sampleBufferedHist.combined_step "h").steps = sampleBufferedHist.steps
      ∧ (sampleBufferedHist.combined_step "h").outputs = sampleBufferedHist.outputs) :=
  ⟨rfl, combined_step_replaces_context sampleBufferedHist
    { tag := "g", subSteps := [sampleStep] } "h" rfl⟩

/-! ### C8 -/

/-- C8: attaching an unattached sink twice yields the same history state as
attaching it once; a subsequent `append` then notifies that sink exactly once
(one emitted event for it in the call's trace); and detaching a sink that is
not attached leaves the history unchanged. -/
theorem sink_attach_idempotent_detach_noop (h : HistState) (o : Nat)
    (me : HistId) (ix : Nat) (d : String) (args : List SymExpr) (v : SymExpr)
    (ho : o ∉ h.outputs) :
    (h.attach_output o).attach_output o = h.attach_output o
    ∧ ((h.attach_output o).append me ix d args v).2.2.countP (Event.isEmitTo o) = 1
    ∧ h.detach_output o = h := by
  refine ⟨?_, ?_, ?_⟩
  · simp [HistState.attach_output, ho]
  · simp [HistState.attach_output, ho, HistState.append, HistState.append_step,
      HistState.update, List.countP_cons, Event.isEmitTo, countP_emits,
      List.count_append]
    intro a ha he
    exact ho (he ▸ ha)
  · simp [HistState.detach_output, ho]

theorem sink_attach_idempotent_detach_noop_witness :
    (3 : Nat) ∉ emptyHist.outputs
    ∧ ((emptyHist.attach_output 3).attach_output 3 = emptyHist.attach_output 3
      ∧ ((emptyHist.attach_output 3).append .solo 0 "Add" [.intC 1]
          (.symC "x")).2.2.countP (Event.isEmitTo 3) = 1
      ∧ emptyHist.detach_output 3 = emptyHist) :=
  ⟨by decide,
    sink_attach_idempotent_detach_noop emptyHist 3 .solo 0 "Add" [.intC 1]
      (.symC "x") (by decide)⟩

/-! ### C4 -/

/-- C4: a failed algebra-engine call inside a mutating operation leaves the
Expression untouched: for the generic `apply` with an arbitrary transform `f`,
and for `_substitute` with an arbitrary engine substitution `subsF`, if the
engine call on the current value raises, the call returns the state unchanged
(same value, same history, no appended step), emits nothing, and propagates
the engine's error — the value is only reassigned after the engine call
succeeds. -/
theorem engine_failure_leaves_expression_unchanged (s : ExprState)
    (fname : String) (f : SymExpr → Except PyError SymExpr)
    (args : List SymExpr) (d : Option String)
    (subsF : SymExpr → SymExpr → SymExpr → Except PyError SymExpr)
    (a b : SymExpr) (d2 : String) (ig : Bool) (err err2 : PyError)
    (hf : f s.expr = .error err) (hsub : subsF s.expr a b = .error err2) :
    Expression.apply s fname f args d = (s, .error err)
    ∧ Expression.substitute_with s subsF a b d2 ig = (s, .error err2) := by
  constructor
  · simp [Expression.apply, hf]
  · simp [Expression.substitute_with, hsub]

theorem engine_failure_leaves_expression_unchanged_witness :
    (fun (_ : SymExpr) => (.error .engineError : Except PyError SymExpr))
        (mkExpression (.symC "x")).expr = .error .engineError
    ∧ (fun (_ _ _ : SymExpr) => (.error .engineError : Except PyError SymExpr))
        (mkExpression (.symC "x")).expr (.symC "x") (.intC 2) = .error .engineError
    ∧ (Expression.apply (mkExpression (.symC "x")) "factor"
          (fun _ => .error .engineError) [] none
        = (mkExpression (.symC "x"), .error .engineError)
      ∧ Expression.substitute_with (mkExpression (.symC "x"))
          (fun _ _ _ => .error .engineError) (.symC "x") (.intC 2) "Substitute" false
        = (mkExpression (.symC "x"), .error .engineError)) :=
  ⟨rfl, rfl,
    engine_failure_leaves_expression_unchanged (mkExpression (.symC "x"))
      "factor" (fun _ => .error .engineError) [] none
      (fun _ _ _ => .error .engineError) (.symC "x") (.intC 2) "Substitute" false
      .engineError .engineError rfl rfl⟩

/-! ### C6 -/

/-- C6: `substitute(a, b)` and `substitute(E)` for an equation-like `E` with
left-hand side `a` and right-hand side `b` (either an `Equation` object or a
`sympy.Eq`) return identical results: the same new value, the same appended
Work Step (hence the same history description and arguments), the same
emitted events, and the same recorded substitution pair. -/
theorem substitute_pair_eq_substitute_equation (s : ExprState)
    (a b : SymExpr) (d : String) (ig : Bool) :
    Expression.substitute s [SubArg.exprA a, SubArg.exprA b] d ig
      = Expression.substitute s [SubArg.equationObj a b] d ig
    ∧ Expression.substitute s [SubArg.exprA a, SubArg.exprA b] d ig
      = Expression.substitute s [SubArg.eqn a b] d ig :=
  ⟨rfl, rfl⟩

/-! ### C7 -/

/-- C7: `substitute` returns the invalid-argument error (`ValueError`) exactly
when it receives zero positional arguments, one positional argument that is
not equation-like, or more than two positional arguments; with two arguments
or with one equation-like argument it succeeds and raises no error. -/
theorem substitute_arity_error_iff (s : ExprState) (args : List SubArg)
    (d : String) (ig : Bool) :
    (Expression.substitute s args d ig).2 = .error PyError.valueError
      ↔ (args = [] ∨ (∃ e, args = [SubArg.exprA e]) ∨ 2 < args.length) := by
  match args with
  | [] => simp [Expression.substitute]
  | [a] =>
    cases a <;>
      simp [Expression.substitute, Expression.substitute1,
        Expression.substitute_with]
  | [a, b] =>
    simp [Expression.substitute, Expression.substitute1,
      Expression.substitute_with]
  | a :: b :: c :: t => simp [Expression.substitute]

/-! ### Per-operation lemmas for Equation side operations -/

theorem placedIndices_cons_placed (hid : HistId) (s : WorkStep) (evs : List Event) :
    placedIndices (Event.placed hid s :: evs) = s.index :: placedIndices evs := rfl

theorem placedIndices_cons_emitted (o : Nat) (s : WorkStep) (evs : List Event) :
    placedIndices (Event.emitted o s :: evs) = placedIndices evs := rfl

theorem sideMutate_trace (e : EqState) (side : Side) (d : String)
    (args : List SymExpr) (v : SymExpr) (hctx : e.combined.context = none) :
    placedIndices (e.sideMutate side d args v).2 = [e.counter, e.counter]
    ∧ (e.sideMutate side d args v).1.counter = e.counter + 1
    ∧ (e.sideMutate side d args v).1.combined.context = none := by
  cases side <;>
    simp [EqState.sideMutate, EqState.sideHistAppend, EqState.setSideExpr,
      EqState.setSideHist, EqState.sideHist, EqState.as_sympy, Side.histId,
      Side.tag, HistState.append_by_child, HistState.append_step,
      HistState.update, hctx, placedIndices_cons_placed,
      placedIndices_cons_emitted, placedIndices_append, placedIndices_emits,
      placedIndices_nil]

theorem sideOp_run_trace (e : EqState) (op : SideOp)
    (hctx : e.combined.context = none) :
    placedIndices (op.run e).2 = [e.counter, e.counter]
    ∧ (op.run e).1.counter = e.counter + 1
    ∧ (op.run e).1.combined.context = none := by
  cases op with
  | addO s k => exact sideMutate_trace e s "Add" [k] _ hctx
  | subtractO s k => exact sideMutate_trace e s "Subtract" [k] _ hctx
  | multiplyByO s k => exact sideMutate_trace e s "Multiply by" [k] _ hctx

theorem runOps_placed_trace (ops : List SideOp) : ∀ (e : EqState),
    e.combined.context = none →
    placedIndices (e.runOps ops).2
      = ((List.range' e.counter ops.length).map (fun n => [n, n])).flatten := by
  induction ops with
  | nil => intro e _; simp [EqState.runOps, placedIndices_nil]
  | cons op rest ih =>
    intro e hctx
    obtain ⟨h1, h2, h3⟩ := sideOp_run_trace e op hctx
    simp only [EqState.runOps, placedIndices_append, h1, ih _ h3, h2,
      List.length_cons, List.range'_succ, List.map_cons, List.flatten]

/-! ### C2 -/

/-- C2 counterexample: a single `left.add(1)` on the equation `x = y` places
the step in the left history and its propagated copy in the combined history,
and the copy keeps the index of its source step (`_append_by_child` copies the
step), so the flattened index sequence is `[0, 0]` — it repeats, hence is not
strictly increasing. -/
theorem index_flattening_not_strictly_increasing :
    placedIndices ((mkEquation (.symC "x") (some (.symC "y"))).runOps
        [.addO .leftS (.intC 1)]).2 = [0, 0]
    ∧ ¬ (placedIndices ((mkEquation (.symC "x") (some (.symC "y"))).runOps
        [.addO .leftS (.intC 1)]).2).Nodup := by
  refine ⟨rfl, ?_⟩
  decide

/-- C2 amended: for every Equation and every sequence of side-wise operations
(the equation-wide operations being unreachable, as they raise `TypeError`),
the flattened sequence of step indices across the left, right, and combined
histories, in production/propagation order, is `0,0,1,1,2,2,…`: each newly
issued index is consecutive with no gaps and no repeats among *distinct*
steps, but each index appears twice because the copy propagated to the
combined history reuses the index of its source step — so the flattened
sequence is non-decreasing rather than strictly increasing. -/
theorem index_trace_amended (L : SymExpr) (R : Option SymExpr)
    (ops : List SideOp) :
    placedIndices ((mkEquation L R).runOps ops).2
      = ((List.range' 0 ops.length).map (fun n => [n, n])).flatten :=
  runOps_placed_trace ops (mkEquation L R) rfl

/-! ### C9 machinery -/

theorem sideMutate_fst (e : EqState) (side : Side) (d : String)
    (args : List SymExpr) (v : SymExpr) (hctx : e.combined.context = none) :
    (e.sideMutate side d args v).1 =
      { (e.setSideExpr side v).setSideHist side
          { lastState := (e.sideHist side).currentState,
            currentState := some v,
            steps := (e.sideHist side).steps ++
              [{ index := e.counter, description := d, args := args,
                 before := (e.sideHist side).currentState, after := some v,
                 suffix := none, children := none }],
            outputs := (e.sideHist side).outputs,
            context := (e.sideHist side).context } with
        counter := e.counter + 1,
        combined :=
          { lastState := e.combined.currentState,
            currentState := some ((e.setSideExpr side v).as_sympy),
            steps := e.combined.steps ++
              [{ index := e.counter, description := d, args := args,
                 before := e.combined.currentState,
                 after := some ((e.setSideExpr side v).as_sympy),
                 suffix := some (" on " ++ side.tag), children := none }],
            outputs := e.combined.outputs,
            context := none } } := by
  cases side <;>
    simp [EqState.sideMutate, EqState.sideHistAppend, EqState.setSideExpr,
      EqState.setSideHist, EqState.sideHist, EqState.sideExpr, EqState.as_sympy,
      Side.tag, Side.histId, HistState.append_by_child, HistState.append_step,
      HistState.update, hctx]

theorem sideMutate_inv (e : EqState) (side : Side) (d : String)
    (args : List SymExpr) (v : SymExpr) (hinv : EqInv e) :
    EqInv (e.sideMutate side d args v).1 := by
  obtain ⟨hcs, hctx, hall, hL, hR⟩ := hinv
  rw [sideMutate_fst e side d args v hctx]
  cases side
  case leftS =>
    refine ⟨by simp [EqState.setSideHist, EqState.setSideExpr], rfl, ?_, ⟨?_, ?_⟩, ?_⟩
    · simp only [EqState.setSideHist, EqState.setSideExpr,
        allBeforeAfterSome_append, hall, Bool.true_and]
      simp [allBeforeAfterSome, hcs]
    · simp [EqState.setSideHist, EqState.setSideExpr]
    · simp only [EqState.setSideHist, EqState.setSideExpr, EqState.sideHist]
      cases h0 : e.leftHist.steps with
      | nil =>
        have hcur : e.leftHist.currentState = none := hL.1.mpr h0
        simp [h0, hcur, sideBeforePattern, allBeforeAfterSome]
      | cons s0 rest =>
        have hcur : e.leftHist.currentState ≠ none := by
          intro hc
          rw [hL.1.mp hc] at h0
          exact List.noConfusion h0
        rw [← h0]
        exact sideBeforePattern_append _ _ hL.2 (by simp [h0])
          (Option.isSome_iff_ne_none.mpr hcur) rfl
    · simpa [EqState.setSideHist, EqState.setSideExpr] using hR
  case rightS =>
    refine ⟨by simp [EqState.setSideHist, EqState.setSideExpr], rfl, ?_, ?_, ⟨?_, ?_⟩⟩
    · simp only [EqState.setSideHist, EqState.setSideExpr,
        allBeforeAfterSome_append, hall, Bool.true_and]
      simp [allBeforeAfterSome, hcs]
    · simpa [EqState.setSideHist, EqState.setSideExpr] using hL
    · simp [EqState.setSideHist, EqState.setSideExpr]
    · simp only [EqState.setSideHist, EqState.setSideExpr, EqState.sideHist]
      cases h0 : e.rightHist.steps with
      | nil =>
        have hcur : e.rightHist.currentState = none := hR.1.mpr h0
        simp [h0, hcur, sideBeforePattern, allBeforeAfterSome]
      | cons s0 rest =>
        have hcur : e.rightHist.currentState ≠ none := by
          intro hc
          rw [hR.1.mp hc] at h0
          exact List.noConfusion h0
        rw [← h0]
        exact sideBeforePattern_append _ _ hR.2 (by simp [h0])
          (Option.isSome_iff_ne_none.mpr hcur) rfl

theorem sideOp_run_inv (e : EqState) (op : SideOp) (hinv : EqInv e) :
    EqInv (op.run e).1 := by
  cases op with
  | addO s k => exact sideMutate_inv e s "Add" [k] _ hinv
  | subtractO s k => exact sideMutate_inv e s "Subtract" [k] _ hinv
  | multiplyByO s k => exact sideMutate_inv e s "Multiply by" [k] _ hinv

theorem runOps_inv (ops : List SideOp) : ∀ (e : EqState), EqInv e →
    EqInv (e.runOps ops).1 := by
  induction ops with
  | nil => intro e h; exact h
  | cons op rest ih =>
    intro e h
    simpa [EqState.runOps] using ih _ (sideOp_run_inv e op h)

theorem mkEquation_inv (L : SymExpr) (R : Option SymExpr) :
    EqInv (mkEquation L R) :=
  ⟨rfl, rfl, rfl, ⟨by simp [mkEquation, emptyHist], rfl⟩,
    ⟨by simp [mkEquation, emptyHist], rfl⟩⟩

/-! ### C9 -/

/-- C9 counterexample: an Equation created with initial values (`x = y`, so a
prior left state `x` existed at construction) nevertheless records `before =
None` on the very first step of its left-side history — the side histories
are constructed without a `current_state`, so the claim's "None only when no
prior state existed" fails for them. -/
theorem side_history_first_before_none :
    (mkEquation (.symC "x") (some (.symC "y"))).leftExpr = .symC "x"
    ∧ (((mkEquation (.symC "x") (some (.symC "y"))).runOps
        [.addO .leftS (.intC 1)]).1.leftHist.steps.map (fun s => s.before))
      = [none] :=
  ⟨rfl, rfl⟩

/-- C9 amended: across every reachable Equation state (initial values followed
by any sequence of side-wise operations), every step of the combined history
has present `before` and `after` snapshots, and each side history's log has
`before = None` exactly on its first entry (its `WorkingHistory` is
constructed without an initial state, even though the Equation itself was
created with initial values), with every later `before` and every `after`
present. -/
theorem before_after_fields_amended (L : SymExpr) (R : Option SymExpr)
    (ops : List SideOp) :
    allBeforeAfterSome (((mkEquation L R).runOps ops).1).combined.steps = true
    ∧ sideBeforePattern (((mkEquation L R).runOps ops).1).leftHist.steps = true
    ∧ sideBeforePattern (((mkEquation L R).runOps ops).1).rightHist.steps = true := by
  obtain ⟨_, _, h3, h4, h5⟩ := runOps_inv ops (mkEquation L R) (mkEquation_inv L R)
  exact ⟨h3, h4.2, h5.2⟩
